import Mathlib

/-!
Shallow embedding of the ChaCha block function from
`src/chacha20/src/block/soft.rs` (portable software implementation).

Machine integers are embedded as `Nat` with explicit reduction modulo
`2 ^ 32` (for `u32`) resp. masking for the `u64` counter.  Byte buffers
and the 16-word state are `List Nat`.  The Rust `assert!` in `Block::new`
and the `debug_assert_eq!` buffer-length preconditions in
`Block::generate` / `Block::apply_keystream` are embedded as `Option`
guards: `none` models the fatal precondition failure.
-/

namespace ChaCha

/-- Modelled from the spec: `STATE_WORDS` is declared in the crate root,
which is not under `src/`; the spec fixes the state at 16 words. -/
def STATE_WORDS : Nat := 16

/-- Modelled from the spec: `KEY_SIZE` is declared in the crate root,
which is not under `src/`; the spec fixes the key at 32 bytes. -/
def KEY_SIZE : Nat := 32

/-- Modelled from the spec: `IV_SIZE` is declared in the crate root,
which is not under `src/`; the spec fixes the nonce at 8 bytes. -/
def IV_SIZE : Nat := 8

/-- Modelled from the spec: `BLOCK_SIZE` is declared in the crate root,
which is not under `src/`; the spec fixes the block at 64 bytes. -/
def BLOCK_SIZE : Nat := 64

/-- Size of buffers passed to `generate` and `apply_keystream`
(`BUFFER_SIZE` in `soft.rs`). -/
def BUFFER_SIZE : Nat := BLOCK_SIZE

/-- Modelled from the spec: `CONSTANTS` is declared in the crate root,
which is not under `src/`; the spec gives the four constant words
(ASCII "expand 32-byte k" as little-endian 32-bit words). -/
def CONSTANTS : List Nat := [0x61707865, 0x3320646e, 0x79622d32, 0x6b206574]

/-- Rust `u32::wrapping_add`: addition modulo `2 ^ 32`. -/
def wrapping_add (x y : Nat) : Nat := (x + y) % 2 ^ 32

/-- Rust `u32::rotate_left` on a 32-bit word (all uses have `0 < n < 32`). -/
def rotate_left (x n : Nat) : Nat :=
  ((x % 2 ^ 32) * 2 ^ n) % 2 ^ 32 ||| (x % 2 ^ 32) / 2 ^ (32 - n)

/-- Rust `u32::from_le_bytes` on four bytes. -/
def from_le_bytes (b0 b1 b2 b3 : Nat) : Nat :=
  b0 % 2 ^ 8 + 2 ^ 8 * (b1 % 2 ^ 8) + 2 ^ 16 * (b2 % 2 ^ 8) + 2 ^ 24 * (b3 % 2 ^ 8)

/-- Rust `u32::to_le_bytes`: the four bytes of a 32-bit word, little-endian. -/
def to_le_bytes (w : Nat) : List Nat :=
  [w % 2 ^ 8, w / 2 ^ 8 % 2 ^ 8, w / 2 ^ 16 % 2 ^ 8, w / 2 ^ 24 % 2 ^ 8]

/-- Rust `slice::chunks(4)`: split a byte list into chunks of 4
(the last chunk may be shorter). -/
def chunks4 : List Nat → List (List Nat)
  | [] => []
  | [a] => [[a]]
  | [a, b] => [[a, b]]
  | [a, b, c] => [[a, b, c]]
  | a :: b :: c :: d :: rest => [a, b, c, d] :: chunks4 rest

/-- The ChaCha20 quarter round function (`quarter_round` in `soft.rs`):
a sequence of index-addressed reads, wrapping additions, xors, rotations
and writes on the 16-word state. -/
def quarter_round (a b c d : Nat) (state : List Nat) : List Nat :=
  let s1 := state.set a (wrapping_add (state.getD a 0) (state.getD b 0))
  let s2 := s1.set d ((s1.getD d 0) ^^^ (s1.getD a 0))
  let s3 := s2.set d (rotate_left (s2.getD d 0) 16)
  let s4 := s3.set c (wrapping_add (s3.getD c 0) (s3.getD d 0))
  let s5 := s4.set b ((s4.getD b 0) ^^^ (s4.getD c 0))
  let s6 := s5.set b (rotate_left (s5.getD b 0) 12)
  let s7 := s6.set a (wrapping_add (s6.getD a 0) (s6.getD b 0))
  let s8 := s7.set d ((s7.getD d 0) ^^^ (s7.getD a 0))
  let s9 := s8.set d (rotate_left (s8.getD d 0) 8)
  let s10 := s9.set c (wrapping_add (s9.getD c 0) (s9.getD d 0))
  let s11 := s10.set b ((s10.getD b 0) ^^^ (s10.getD c 0))
  let s12 := s11.set b (rotate_left (s11.getD b 0) 7)
  s12

/-- Body of the `for` loop in `Block::rounds`: four column quarter rounds
followed by four diagonal quarter rounds. -/
def double_round (s : List Nat) : List Nat :=
  quarter_round 3 4 9 14
    (quarter_round 2 7 8 13
      (quarter_round 1 6 11 12
        (quarter_round 0 5 10 15
          (quarter_round 3 7 11 15
            (quarter_round 2 6 10 14
              (quarter_round 1 5 9 13
                (quarter_round 0 4 8 12 s)))))))

/-- The `Block` struct of `soft.rs`: 16-word internal state plus the
number of rounds. -/
structure Block where
  state : List Nat
  rounds : Nat
  deriving DecidableEq, Repr

/-- `Block::new`: the `assert!(rounds == 8 || rounds == 12 || rounds == 20)`
is the `Option` guard.  The source zero-initializes the state and then
assigns constants into `state[0..4]`, the key chunks into `state[4 + i]`,
zero into `state[12]` and `state[13]`, and the nonce words into
`state[14]` and `state[15]`; since the key is a `[u8; 32]` (eight chunks)
this fills all 16 words, written here as one concatenation. -/
def Block.new (key : List Nat) (iv : List Nat) (rounds : Nat) : Option Block :=
  if rounds = 8 ∨ rounds = 12 ∨ rounds = 20 then
    some
      { state :=
          CONSTANTS ++
            (chunks4 key).map
              (fun c => from_le_bytes (c.getD 0 0) (c.getD 1 0) (c.getD 2 0) (c.getD 3 0)) ++
            [0, 0] ++
            [from_le_bytes (iv.getD 0 0) (iv.getD 1 0) (iv.getD 2 0) (iv.getD 3 0),
             from_le_bytes (iv.getD 4 0) (iv.getD 5 0) (iv.getD 6 0) (iv.getD 7 0)]
        rounds := rounds }
  else none

/-- `Block::counter_setup`: writes the low and high 32-bit halves of the
64-bit counter into words 12 and 13 of `self.state` (the engine's own
stored state, not a copy). -/
def Block.counter_setup (b : Block) (counter : Nat) : Block :=
  { b with
    state := (b.state.set 12 (counter % 2 ^ 32)).set 13 (counter / 2 ^ 32 % 2 ^ 32) }

/-- `Block::rounds` (named `run_rounds` here because `rounds` is the field
name): iterates the double round `self.rounds / 2` times on the working
state, then feed-forward adds `self.state` word-wise with wrapping. -/
def Block.run_rounds (b : Block) (state : List Nat) : List Nat :=
  List.zipWith wrapping_add (double_round^[b.rounds / 2] state) b.state

/-- Serialization loop shared by `generate`: word `i` of the state is
written little-endian into byte chunk `i` of the 64-byte buffer. -/
def serialize (words : List Nat) : List Nat :=
  words.flatMap to_le_bytes

/-- `Block::generate`: `debug_assert_eq!(output.len(), BUFFER_SIZE)` is the
`Option` guard; then `counter_setup` mutates `self.state`, a working copy
is run through the rounds, and the result overwrites the buffer.  Returns
the mutated engine together with the new buffer contents. -/
def Block.generate (b : Block) (counter : Nat) (output : List Nat) :
    Option (Block × List Nat) :=
  if output.length = BUFFER_SIZE then
    let b1 := b.counter_setup counter
    some (b1, serialize (b1.run_rounds b1.state))
  else none

/-- `Block::apply_keystream`: like `generate`, but each serialized
keystream byte is xored into the corresponding buffer byte in place
(chunk `i` of the buffer is zipped with `state[i].to_le_bytes()`, which
for a 64-byte buffer is the byte-wise zip with the serialized block). -/
def Block.apply_keystream (b : Block) (counter : Nat) (output : List Nat) :
    Option (Block × List Nat) :=
  if output.length = BUFFER_SIZE then
    let b1 := b.counter_setup counter
    some (b1, List.zipWith (fun x k => x ^^^ k) output (serialize (b1.run_rounds b1.state)))
  else none

/-! Reference definitions written from the specification text, for the
refinement claims.  `qr_spec` transcribes the spec's quarter-round
pseudocode on four word values; `spec_block_bytes` transcribes the spec's
block-generation algorithm (counter load, `rounds / 2` double rounds on a
working copy, feed-forward, little-endian serialization). -/

/-- Spec quarter-round sequence on the four selected words:
`a += b; d ^= a; d <<<= 16; c += d; b ^= c; b <<<= 12;
a += b; d ^= a; d <<<= 8; c += d; b ^= c; b <<<= 7`,
all additions modulo `2 ^ 32`. -/
def qr_spec (a0 b0 c0 d0 : Nat) : Nat × Nat × Nat × Nat :=
  let a1 := (a0 + b0) % 2 ^ 32
  let d1 := d0 ^^^ a1
  let d2 := rotate_left d1 16
  let c1 := (c0 + d2) % 2 ^ 32
  let b1 := b0 ^^^ c1
  let b2 := rotate_left b1 12
  let a2 := (a1 + b2) % 2 ^ 32
  let d3 := d2 ^^^ a2
  let d4 := rotate_left d3 8
  let c2 := (c1 + d4) % 2 ^ 32
  let b3 := b2 ^^^ c2
  let b4 := rotate_left b3 7
  (a2, b4, c2, d4)

/-- Spec column pass: quarter-rounds on (0,4,8,12), (1,5,9,13),
(2,6,10,14), (3,7,11,15). -/
def spec_column_round (s : List Nat) : List Nat :=
  quarter_round 3 7 11 15
    (quarter_round 2 6 10 14
      (quarter_round 1 5 9 13
        (quarter_round 0 4 8 12 s)))

/-- Spec diagonal pass: quarter-rounds on (0,5,10,15), (1,6,11,12),
(2,7,8,13), (3,4,9,14). -/
def spec_diagonal_round (s : List Nat) : List Nat :=
  quarter_round 3 4 9 14
    (quarter_round 2 7 8 13
      (quarter_round 1 6 11 12
        (quarter_round 0 5 10 15 s)))

/-- Spec double round: column pass followed by diagonal pass. -/
def spec_double_round (s : List Nat) : List Nat :=
  spec_diagonal_round (spec_column_round s)

/-- Spec block algorithm: load the counter halves into words 12 and 13,
apply the double round `rounds / 2` times to a working copy, feed-forward
add against the pre-round words modulo `2 ^ 32`, and serialize the
16 words little-endian in index order. -/
def spec_block_bytes (state : List Nat) (rounds counter : Nat) : List Nat :=
  let init := (state.set 12 (counter % 2 ^ 32)).set 13 (counter / 2 ^ 32 % 2 ^ 32)
  let work := spec_double_round^[rounds / 2] init
  (List.zipWith (fun w i => (w + i) % 2 ^ 32) work init).flatMap to_le_bytes

/-! A call history on one engine, for the history-independence claim.
Each operation is a `generate` or `apply_keystream` call with an
arbitrary counter and buffer; a call whose buffer fails the length
precondition leaves the engine unchanged. -/

/-- One call against the engine. -/
inductive Op where
  | gen : Nat → List Nat → Op
  | apply : Nat → List Nat → Op
  deriving Repr

/-- Effect of one call on the engine's persistent state. -/
def run_op (b : Block) : Op → Block
  | .gen c buf =>
    match b.generate c buf with
    | some (b1, _) => b1
    | none => b
  | .apply c buf =>
    match b.apply_keystream c buf with
    | some (b1, _) => b1
    | none => b

/-- Effect of a sequence of calls on the engine's persistent state. -/
def run_ops (b : Block) (ops : List Op) : Block :=
  ops.foldl run_op b

/-! Concrete values used by test-vector theorems and witnesses. -/

/-- All-zero 32-byte key. -/
def zero_key : List Nat := List.replicate 32 0

/-- All-zero 8-byte nonce. -/
def zero_iv : List Nat := List.replicate 8 0

/-- All-zero 64-byte buffer. -/
def zero_buf : List Nat := List.replicate 64 0

/-- Modelled from the spec: the published test block cited by the spec for
round count 20, all-zero key, all-zero nonce, counter 0 (the spec cites it
as the RFC 8439 test block; these are the published keystream bytes for
exactly these inputs, RFC 8439 Appendix A.1 Test Vector -|- 1). -/
def rfc8439_block : List Nat :=
  [0x76, 0xb8, 0xe0, 0xad, 0xa0, 0xf1, 0x3d, 0x90,
   0x40, 0x5d, 0x6a, 0xe5, 0x53, 0x86, 0xbd, 0x28,
   0xbd, 0xd2, 0x19, 0xb8, 0xa0, 0x8d, 0xed, 0x1a,
   0xa8, 0x36, 0xef, 0xcc, 0x8b, 0x77, 0x0d, 0xc7,
   0xda, 0x41, 0x59, 0x7c, 0x51, 0x57, 0x48, 0x8d,
   0x77, 0x24, 0xe0, 0x3f, 0xb8, 0xd8, 0x4a, 0x37,
   0x6a, 0x43, 0xb8, 0xf4, 0x15, 0x18, 0xa1, 0x1c,
   0xc3, 0x87, 0xb6, 0x69, 0xb2, 0xee, 0x65, 0x86]

/-- The engine produced by `Block.new zero_key zero_iv 8`, spelled out. -/
def block8 : Block :=
  { state := [0x61707865, 0x3320646e, 0x79622d32, 0x6b206574,
              0, 0, 0, 0, 0, 0, 0, 0, 0, 0, 0, 0]
    rounds := 8 }

/-! General helper lemmas about the embedded operations. -/

theorem getD_set_self {l : List Nat} {i : Nat} (x : Nat) (h : i < l.length) :
    (l.set i x).getD i 0 = x := by
  simp [List.getD_eq_getElem?_getD, List.getElem?_set_self h]

theorem getD_set_ne {l : List Nat} {i j : Nat} (x : Nat) (h : i ≠ j) :
    (l.set i x).getD j 0 = l.getD j 0 := by
  simp [List.getD_eq_getElem?_getD, List.getElem?_set, h]

theorem list_ext_getD {l1 l2 : List Nat} (h : l1.length = l2.length)
    (hp : ∀ i, i < l1.length → l1.getD i 0 = l2.getD i 0) : l1 = l2 := by
  refine List.ext_getElem h fun n h1 h2 => ?_
  have := hp n h1
  rwa [List.getD_eq_getElem l1 0 h1, List.getD_eq_getElem l2 0 h2] at this

theorem quarter_round_length (a b c d : Nat) (s : List Nat) :
    (quarter_round a b c d s).length = s.length := by
  simp [quarter_round, List.length_set]

theorem double_round_length (s : List Nat) :
    (double_round s).length = s.length := by
  simp [double_round, quarter_round_length]

theorem iterate_double_round_length (n : Nat) (s : List Nat) :
    (double_round^[n] s).length = s.length := by
  induction n generalizing s with
  | zero => rfl
  | succ n ih => rw [Function.iterate_succ_apply, ih, double_round_length]

theorem counter_setup_state_length (b : Block) (c : Nat) :
    (b.counter_setup c).state.length = b.state.length := by
  simp [Block.counter_setup, List.length_set]

theorem counter_setup_rounds (b : Block) (c : Nat) :
    (b.counter_setup c).rounds = b.rounds := rfl

theorem counter_setup_counter_setup (b : Block) (c1 c2 : Nat) :
    (b.counter_setup c1).counter_setup c2 = b.counter_setup c2 := by
  simp only [Block.counter_setup]
  congr 1
  rw [List.set_comm _ _ _ (by omega : (13 : Nat) ≠ 12), List.set_set, List.set_set]

theorem chunks4_length : ∀ (n : Nat) (l : List Nat), l.length = 4 * n →
    (chunks4 l).length = n := by
  intro n
  induction n with
  | zero =>
    intro l h
    have : l = [] := List.eq_nil_of_length_eq_zero (by omega)
    simp [this, chunks4]
  | succ n ih =>
    intro l h
    match l with
    | [] => simp only [List.length_nil] at h; omega
    | [a] => simp only [List.length_cons, List.length_nil] at h; omega
    | [a, b] => simp only [List.length_cons, List.length_nil] at h; omega
    | [a, b, c] => simp only [List.length_cons, List.length_nil] at h; omega
    | a :: b :: c :: d :: rest =>
      have hrest : rest.length = 4 * n := by
        simp only [List.length_cons] at h; omega
      simp [chunks4, ih rest hrest]

theorem new_state_length {key iv : List Nat} {r : Nat} {b : Block}
    (h : Block.new key iv r = some b) (hk : key.length = 32) :
    b.state.length = 16 := by
  by_cases hr : r = 8 ∨ r = 12 ∨ r = 20
  · rw [Block.new, if_pos hr] at h
    have hb := Option.some.inj h
    subst hb
    simp [CONSTANTS, List.length_append, List.length_map,
      chunks4_length 8 key (by omega)]
  · rw [Block.new, if_neg hr] at h
    cases h

theorem new_rounds_eq {key iv : List Nat} {r : Nat} {b : Block}
    (h : Block.new key iv r = some b) : b.rounds = r := by
  by_cases hr : r = 8 ∨ r = 12 ∨ r = 20
  · rw [Block.new, if_pos hr] at h
    have hb := Option.some.inj h
    subst hb
    rfl
  · rw [Block.new, if_neg hr] at h
    cases h

theorem serialize_length (words : List Nat) :
    (serialize words).length = 4 * words.length := by
  induction words with
  | nil => rfl
  | cons w ws ih =>
    simp only [serialize, List.flatMap_cons, List.length_append, to_le_bytes,
      List.length_cons, List.length_nil] at *
    omega

theorem run_rounds_length (b : Block) (s : List Nat) :
    (b.run_rounds s).length = min s.length b.state.length := by
  simp [Block.run_rounds, List.length_zipWith, iterate_double_round_length]

/-- Length of the serialized keystream block produced inside `generate` and
`apply_keystream`, for an engine whose state has 16 words. -/
theorem keystream_length {b : Block} (hs : b.state.length = 16) (c : Nat) :
    (serialize ((b.counter_setup c).run_rounds (b.counter_setup c).state)).length = 64 := by
  rw [serialize_length, run_rounds_length, counter_setup_state_length, hs]
  omega

theorem zipWith_xor_xor_cancel :
    ∀ (out ks : List Nat), out.length ≤ ks.length →
      List.zipWith (fun x k => x ^^^ k)
        (List.zipWith (fun x k => x ^^^ k) out ks) ks = out := by
  intro out
  induction out with
  | nil => intro ks _; simp
  | cons a out ih =>
    intro ks h
    cases ks with
    | nil => simp at h
    | cons k ks =>
      simp only [List.zipWith_cons_cons, List.cons.injEq]
      refine ⟨?_, ih ks (by simpa using h)⟩
      rw [Nat.xor_assoc, Nat.xor_self, Nat.xor_zero]

theorem zipWith_xor_zero :
    ∀ (ks : List Nat) (n : Nat), ks.length ≤ n →
      List.zipWith (fun x k => x ^^^ k) (List.replicate n 0) ks = ks := by
  intro ks
  induction ks with
  | nil => intro n _; simp
  | cons k ks ih =>
    intro n h
    cases n with
    | zero => simp at h
    | succ n =>
      simp only [List.replicate_succ, List.zipWith_cons_cons, Nat.zero_xor]
      rw [ih n (by simpa using h)]

/-! ### C1: reference test vector -/

set_option maxRecDepth 100000 in
/-- C1: for round count 20, an all-zero 32-byte key, an all-zero 8-byte
nonce, and counter 0, the 64-byte block written by `generate` equals the
published test block cited by the spec for these inputs. -/
theorem generate_rfc8439_zero_vector :
    ((Block.new zero_key zero_iv 20).bind
      fun b => (b.generate 0 zero_buf).map Prod.snd) = some rfc8439_block := by
  decide

/-! ### C5: buffer-length precondition -/

/-- C5: `generate` and `apply_keystream` succeed exactly when the output
buffer is 64 bytes long; any other length (in particular 63 or 65) fails
the precondition check. -/
theorem buffer_length_precondition (b : Block) (counter : Nat) (output : List Nat) :
    ((b.generate counter output).isSome ↔ output.length = 64) ∧
    ((b.apply_keystream counter output).isSome ↔ output.length = 64) := by
  by_cases h : output.length = 64 <;>
    simp [Block.generate, Block.apply_keystream, BUFFER_SIZE, BLOCK_SIZE, h]

/-! ### C8: round-count precondition -/

/-- C8: `Block.new` succeeds exactly when the round count is 8, 12 or 20;
in particular 7, 9 and 21 fail the precondition check. -/
theorem new_rounds_precondition (key iv : List Nat) (rounds : Nat) :
    (Block.new key iv rounds).isSome ↔ (rounds = 8 ∨ rounds = 12 ∨ rounds = 20) := by
  by_cases h : rounds = 8 ∨ rounds = 12 ∨ rounds = 20 <;> simp [Block.new, h]

/-! ### C7: initial state layout -/

/-- C7: for every 32-byte key, 8-byte nonce, and round count in
{8, 12, 20}, `Block.new` produces an engine whose state is the four
constant words, the key packed as eight little-endian words, two zero
counter words, and the nonce packed as two little-endian words. -/
theorem new_state_layout (r : Nat)
    (k0 k1 k2 k3 k4 k5 k6 k7 k8 k9 k10 k11 k12 k13 k14 k15
     k16 k17 k18 k19 k20 k21 k22 k23 k24 k25 k26 k27 k28 k29 k30 k31
     n0 n1 n2 n3 n4 n5 n6 n7 : Nat)
    (hr : r = 8 ∨ r = 12 ∨ r = 20) :
    Block.new
      [k0, k1, k2, k3, k4, k5, k6, k7, k8, k9, k10, k11, k12, k13, k14, k15,
       k16, k17, k18, k19, k20, k21, k22, k23, k24, k25, k26, k27, k28, k29, k30, k31]
      [n0, n1, n2, n3, n4, n5, n6, n7] r =
      some
        { state :=
            [0x61707865, 0x3320646e, 0x79622d32, 0x6b206574,
             from_le_bytes k0 k1 k2 k3, from_le_bytes k4 k5 k6 k7,
             from_le_bytes k8 k9 k10 k11, from_le_bytes k12 k13 k14 k15,
             from_le_bytes k16 k17 k18 k19, from_le_bytes k20 k21 k22 k23,
             from_le_bytes k24 k25 k26 k27, from_le_bytes k28 k29 k30 k31,
             0, 0,
             from_le_bytes n0 n1 n2 n3, from_le_bytes n4 n5 n6 n7]
          rounds := r } := by
  rw [Block.new, if_pos hr]
  rfl

/-- Witness for C7 at round count 20 and all-zero key and nonce. -/
theorem new_state_layout_witness :
    Block.new
      [0, 0, 0, 0, 0, 0, 0, 0, 0, 0, 0, 0, 0, 0, 0, 0,
       0, 0, 0, 0, 0, 0, 0, 0, 0, 0, 0, 0, 0, 0, 0, 0]
      [0, 0, 0, 0, 0, 0, 0, 0] 20 =
      some
        { state :=
            [0x61707865, 0x3320646e, 0x79622d32, 0x6b206574,
             from_le_bytes 0 0 0 0, from_le_bytes 0 0 0 0,
             from_le_bytes 0 0 0 0, from_le_bytes 0 0 0 0,
             from_le_bytes 0 0 0 0, from_le_bytes 0 0 0 0,
             from_le_bytes 0 0 0 0, from_le_bytes 0 0 0 0,
             0, 0,
             from_le_bytes 0 0 0 0, from_le_bytes 0 0 0 0]
          rounds := 20 } :=
  new_state_layout 20 0 0 0 0 0 0 0 0 0 0 0 0 0 0 0 0 0 0 0 0 0 0 0 0 0 0 0 0 0 0 0 0
    0 0 0 0 0 0 0 0 (Or.inr (Or.inr rfl))

/-! ### C3: quarter round versus the spec sequence -/

/-- C3: on a 16-word state with pairwise distinct in-range indices, one
application of `quarter_round` updates exactly the four selected words
with the values computed by the spec's ARX sequence `qr_spec` (all
additions modulo `2 ^ 32`) and leaves every other word unchanged. -/
theorem quarter_round_eq_qr_spec (s : List Nat) (a b c d : Nat)
    (hs : s.length = 16)
    (ha : a < 16) (hb : b < 16) (hc : c < 16) (hd : d < 16)
    (hab : a ≠ b) (hac : a ≠ c) (had : a ≠ d)
    (hbc : b ≠ c) (hbd : b ≠ d) (hcd : c ≠ d) :
    quarter_round a b c d s =
      (((s.set a (qr_spec (s.getD a 0) (s.getD b 0) (s.getD c 0) (s.getD d 0)).1).set
            b (qr_spec (s.getD a 0) (s.getD b 0) (s.getD c 0) (s.getD d 0)).2.1).set
          c (qr_spec (s.getD a 0) (s.getD b 0) (s.getD c 0) (s.getD d 0)).2.2.1).set
        d (qr_spec (s.getD a 0) (s.getD b 0) (s.getD c 0) (s.getD d 0)).2.2.2 := by
  have ha' : a < s.length := by omega
  have hb' : b < s.length := by omega
  have hc' : c < s.length := by omega
  have hd' : d < s.length := by omega
  apply list_ext_getD
  · simp [quarter_round, List.length_set]
  · intro i hi
    rw [quarter_round_length, hs] at hi
    by_cases hia : i = a
    · subst hia
      simp [quarter_round, qr_spec, wrapping_add, getD_set_self, getD_set_ne,
        List.length_set, hs, ha, hb, hc, hd,
        hab, hac, had, hbc, hbd, hcd,
        Ne.symm hab, Ne.symm hac, Ne.symm had,
        Ne.symm hbc, Ne.symm hbd, Ne.symm hcd]
    · by_cases hib : i = b
      · subst hib
        simp [quarter_round, qr_spec, wrapping_add, getD_set_self, getD_set_ne,
          List.length_set, hs, ha, hb, hc, hd,
          hab, hac, had, hbc, hbd, hcd,
          Ne.symm hab, Ne.symm hac, Ne.symm had,
          Ne.symm hbc, Ne.symm hbd, Ne.symm hcd]
      · by_cases hic : i = c
        · subst hic
          simp [quarter_round, qr_spec, wrapping_add, getD_set_self, getD_set_ne,
            List.length_set, hs, ha, hb, hc, hd,
            hab, hac, had, hbc, hbd, hcd,
            Ne.symm hab, Ne.symm hac, Ne.symm had,
            Ne.symm hbc, Ne.symm hbd, Ne.symm hcd]
        · by_cases hid : i = d
          · subst hid
            simp [quarter_round, qr_spec, wrapping_add, getD_set_self, getD_set_ne,
              List.length_set, hs, ha, hb, hc, hd,
              hab, hac, had, hbc, hbd, hcd,
              Ne.symm hab, Ne.symm hac, Ne.symm had,
              Ne.symm hbc, Ne.symm hbd, Ne.symm hcd]
          · simp [quarter_round, getD_set_ne,
              Ne.symm hia, Ne.symm hib, Ne.symm hic, Ne.symm hid]

/-- Witness for C3 at the column indices (0,4,8,12) on the `block8` state. -/
theorem quarter_round_eq_qr_spec_witness :
    quarter_round 0 4 8 12 block8.state =
      (((block8.state.set 0
            (qr_spec (block8.state.getD 0 0) (block8.state.getD 4 0)
              (block8.state.getD 8 0) (block8.state.getD 12 0)).1).set
            4 (qr_spec (block8.state.getD 0 0) (block8.state.getD 4 0)
              (block8.state.getD 8 0) (block8.state.getD 12 0)).2.1).set
          8 (qr_spec (block8.state.getD 0 0) (block8.state.getD 4 0)
              (block8.state.getD 8 0) (block8.state.getD 12 0)).2.2.1).set
        12 (qr_spec (block8.state.getD 0 0) (block8.state.getD 4 0)
              (block8.state.getD 8 0) (block8.state.getD 12 0)).2.2.2 :=
  quarter_round_eq_qr_spec block8.state 0 4 8 12 rfl
    (by decide) (by decide) (by decide) (by decide)
    (by decide) (by decide) (by decide) (by decide) (by decide) (by decide)

/-! ### C2: generate refines the spec block algorithm -/

/-- C2: for every engine with round count in {8, 12, 20}, every 64-bit
counter and every 64-byte buffer, the block written by `generate` equals
the reference algorithm `spec_block_bytes` (counter load into words 12
and 13, `rounds / 2` double rounds, wrapping feed-forward, little-endian
serialization). -/
theorem generate_eq_spec_block_bytes (b : Block) (counter : Nat) (output : List Nat)
    (hr : b.rounds = 8 ∨ b.rounds = 12 ∨ b.rounds = 20)
    (hc : counter < 2 ^ 64)
    (ho : output.length = 64) :
    b.generate counter output =
      some (b.counter_setup counter, spec_block_bytes b.state b.rounds counter) := by
  rw [Block.generate, if_pos (show output.length = BUFFER_SIZE from ho)]
  rfl

/-- Witness for C2 on the zero-key 8-round engine with counter 1. -/
theorem generate_eq_spec_block_bytes_witness :
    block8.generate 1 zero_buf =
      some (block8.counter_setup 1, spec_block_bytes block8.state block8.rounds 1) :=
  generate_eq_spec_block_bytes block8 1 zero_buf (Or.inl rfl) (by decide) (by decide)

/-! ### C9: apply_keystream on zeros equals generate -/

/-- C9: for every engine built by `Block.new`, applying the keystream to an
all-zero 64-byte buffer produces exactly the bytes `generate` writes for
the same counter. -/
theorem apply_keystream_zero_eq_generate (key iv : List Nat) (r : Nat) (b : Block)
    (hnew : Block.new key iv r = some b) (hk : key.length = 32) (hi : iv.length = 8)
    (counter : Nat) :
    b.apply_keystream counter zero_buf = b.generate counter zero_buf := by
  have hs : b.state.length = 16 := new_state_length hnew hk
  have hlen : zero_buf.length = BUFFER_SIZE := rfl
  simp only [Block.apply_keystream, Block.generate, if_pos hlen, zero_buf]
  rw [zipWith_xor_zero _ 64 (le_of_eq (keystream_length hs counter))]

/-- Witness for C9 on the zero-key 8-round engine with counter 3. -/
theorem apply_keystream_zero_eq_generate_witness :
    block8.apply_keystream 3 zero_buf = block8.generate 3 zero_buf :=
  apply_keystream_zero_eq_generate zero_key zero_iv 8 block8 (by decide)
    (by decide) (by decide) 3

/-! ### C4: XOR involution -/

/-- C4: for every engine built by `Block.new` and every counter and
64-byte buffer, applying `apply_keystream` and then applying it again on
the resulting engine and buffer with the same counter restores the
original buffer. -/
theorem apply_keystream_involution (key iv : List Nat) (r : Nat) (b : Block)
    (hnew : Block.new key iv r = some b) (hk : key.length = 32) (hi : iv.length = 8)
    (counter : Nat) (output : List Nat) (ho : output.length = 64) :
    ((b.apply_keystream counter output).bind fun p =>
        (p.1.apply_keystream counter p.2).map Prod.snd) = some output := by
  have hs : b.state.length = 16 := new_state_length hnew hk
  have hks := keystream_length hs counter
  have hout1 :
      (List.zipWith (fun x k => x ^^^ k) output
        (serialize ((b.counter_setup counter).run_rounds
          (b.counter_setup counter).state))).length = BUFFER_SIZE := by
    rw [List.length_zipWith, ho, hks]
    decide
  simp only [Block.apply_keystream, if_pos (show output.length = BUFFER_SIZE from ho),
    Option.some_bind, if_pos hout1, counter_setup_counter_setup, Option.map_some]
  rw [zipWith_xor_xor_cancel output _ (by omega)]
  rfl

/-- Witness for C4 on the zero-key 8-round engine with counter 4. -/
theorem apply_keystream_involution_witness :
    ((block8.apply_keystream 4 zero_buf).bind fun p =>
        (p.1.apply_keystream 4 p.2).map Prod.snd) = some zero_buf :=
  apply_keystream_involution zero_key zero_iv 8 block8 (by decide) (by decide)
    (by decide) 4 zero_buf (by decide)

/-! ### C6: the counter is written into the persistent state, not a copy -/

set_option maxRecDepth 100000 in
/-- Counterexample to C6 as stated: on the engine built from the all-zero
key and nonce with 8 rounds, a `generate` call with counter 1 leaves the
engine's persistent state different from its value before the call
(word 12 now holds 1). -/
theorem generate_changes_persistent_state_cex :
    ((Block.new zero_key zero_iv 8).map fun b =>
        (b.generate 1 zero_buf).map fun p => decide (p.1.state = b.state)) =
      some (some false) := by
  decide

/-- C6 amended: `generate` and `apply_keystream` write the counter halves
into words 12 and 13 of the engine's persistent state itself (not a
copy); all other words and the round count are unchanged, so after a call
the persistent state equals its prior value except at words 12 and 13,
which hold the counter halves. -/
theorem counter_setup_writes_persistent_state (b : Block) (counter : Nat)
    (output : List Nat) (b1 : Block) (out : List Nat)
    (h : b.generate counter output = some (b1, out) ∨
         b.apply_keystream counter output = some (b1, out)) :
    b1.state = (b.state.set 12 (counter % 2 ^ 32)).set 13 (counter / 2 ^ 32 % 2 ^ 32) ∧
    b1.rounds = b.rounds ∧
    ∀ i, i ≠ 12 → i ≠ 13 → b1.state.getD i 0 = b.state.getD i 0 := by
  have hb1 : b1 = b.counter_setup counter := by
    by_cases hl : output.length = BUFFER_SIZE
    · rcases h with h | h
      · simp only [Block.generate, if_pos hl] at h
        exact (((Prod.mk.injEq _ _ _ _).mp (Option.some.inj h)).1).symm
      · simp only [Block.apply_keystream, if_pos hl] at h
        exact (((Prod.mk.injEq _ _ _ _).mp (Option.some.inj h)).1).symm
    · rcases h with h | h
      · simp only [Block.generate, if_neg hl] at h
        cases h
      · simp only [Block.apply_keystream, if_neg hl] at h
        cases h
  subst hb1
  refine ⟨rfl, rfl, fun i h12 h13 => ?_⟩
  show ((b.state.set 12 _).set 13 _).getD i 0 = b.state.getD i 0
  rw [getD_set_ne _ (Ne.symm h13), getD_set_ne _ (Ne.symm h12)]

set_option maxRecDepth 100000 in
/-- Witness for the amended C6 on the zero-key 8-round engine, counter 5. -/
theorem counter_setup_writes_persistent_state_witness :
    (block8.counter_setup 5).state =
        (block8.state.set 12 (5 % 2 ^ 32)).set 13 (5 / 2 ^ 32 % 2 ^ 32) ∧
      (block8.counter_setup 5).rounds = block8.rounds ∧
      (block8.counter_setup 5).state.getD 0 0 = block8.state.getD 0 0 := by
  have h := counter_setup_writes_persistent_state block8 5 zero_buf
    (block8.counter_setup 5)
    (serialize ((block8.counter_setup 5).run_rounds (block8.counter_setup 5).state))
    (Or.inl (by decide))
  exact ⟨h.1, h.2.1, h.2.2 0 (by decide) (by decide)⟩

/-! ### C10: keystream output is history independent -/

theorem generate_after_counter_setup (b : Block) (c0 c : Nat) (out : List Nat) :
    (b.counter_setup c0).generate c out = b.generate c out := by
  simp only [Block.generate, counter_setup_counter_setup]

theorem apply_keystream_after_counter_setup (b : Block) (c0 c : Nat) (out : List Nat) :
    (b.counter_setup c0).apply_keystream c out = b.apply_keystream c out := by
  simp only [Block.apply_keystream, counter_setup_counter_setup]

theorem run_op_preserves_blockfun (b : Block) (op : Op) (c : Nat) (out : List Nat) :
    ((run_op b op).generate c out = b.generate c out) ∧
    ((run_op b op).apply_keystream c out = b.apply_keystream c out) := by
  cases op with
  | gen c0 buf =>
    by_cases hl : buf.length = BUFFER_SIZE
    · have hrw : run_op b (Op.gen c0 buf) = b.counter_setup c0 := by
        simp [run_op, Block.generate, if_pos hl]
      rw [hrw]
      exact ⟨generate_after_counter_setup b c0 c out,
        apply_keystream_after_counter_setup b c0 c out⟩
    · have hrw : run_op b (Op.gen c0 buf) = b := by
        simp [run_op, Block.generate, if_neg hl]
      rw [hrw]
      exact ⟨rfl, rfl⟩
  | apply c0 buf =>
    by_cases hl : buf.length = BUFFER_SIZE
    · have hrw : run_op b (Op.apply c0 buf) = b.counter_setup c0 := by
        simp [run_op, Block.apply_keystream, if_pos hl]
      rw [hrw]
      exact ⟨generate_after_counter_setup b c0 c out,
        apply_keystream_after_counter_setup b c0 c out⟩
    · have hrw : run_op b (Op.apply c0 buf) = b := by
        simp [run_op, Block.apply_keystream, if_neg hl]
      rw [hrw]
      exact ⟨rfl, rfl⟩

theorem run_ops_preserves_blockfun :
    ∀ (ops : List Op) (b : Block) (c : Nat) (out : List Nat),
      ((run_ops b ops).generate c out = b.generate c out) ∧
      ((run_ops b ops).apply_keystream c out = b.apply_keystream c out) := by
  intro ops
  induction ops with
  | nil => exact fun b c out => ⟨rfl, rfl⟩
  | cons op ops ih =>
    intro b c out
    have h1 := run_op_preserves_blockfun b op c out
    have h2 := ih (run_op b op) c out
    exact ⟨h2.1.trans h1.1, h2.2.trans h1.2⟩

/-- C10: for an engine built by `Block.new`, after any sequence of
`generate` / `apply_keystream` calls with arbitrary counters and buffers,
the next `generate` (resp. `apply_keystream`) call returns exactly what it
would have returned on the freshly built engine: the keystream depends
only on key, nonce, rounds and the counter of the call itself. -/
theorem keystream_history_independent (key iv : List Nat) (r : Nat) (b0 : Block)
    (hnew : Block.new key iv r = some b0) (ops : List Op) (counter : Nat)
    (output : List Nat) :
    ((run_ops b0 ops).generate counter output = b0.generate counter output) ∧
    ((run_ops b0 ops).apply_keystream counter output = b0.apply_keystream counter output) :=
  run_ops_preserves_blockfun ops b0 counter output

/-- Witness for C10: one prior `generate` call with counter 1, then
counter 2, on the zero-key 8-round engine. -/
theorem keystream_history_independent_witness :
    ((run_ops block8 [Op.gen 1 zero_buf]).generate 2 zero_buf =
        block8.generate 2 zero_buf) ∧
      ((run_ops block8 [Op.gen 1 zero_buf]).apply_keystream 2 zero_buf =
        block8.apply_keystream 2 zero_buf) :=
  keystream_history_independent zero_key zero_iv 8 block8 (by decide)
    [Op.gen 1 zero_buf] 2 zero_buf

end ChaCha
